import Mathlib

/-!
# Verification of the stress-ng dfp / ipsec-mb / prime harness modules

A shallow embedding of the workload-dispatch, timing, verification and
reporting logic of `stress-dfp.c`, `stress-ipsec-mb.c` and `stress-prime.c`.
C doubles are modelled as rational numbers; the byte representation of a
`_Decimal32` result slot is modelled as a natural number (so `memcmp`
equality is equality of these numbers).  The pluggable workload functions,
the monotonic clock and the run's stop condition are external collaborators
and enter the model as parameters (returned durations, continue flags).
-/

/-! ## Exit statuses (stress-ng.h) -/

def EXIT_SUCCESS : Nat := 0
def EXIT_FAILURE : Nat := 1
/-- `EXIT_NO_RESOURCE` from stress-ng.h; the exact numeric value is only
required to be distinct from success/failure. -/
def EXIT_NO_RESOURCE : Nat := 3
/-- `EXIT_NOT_IMPLEMENTED` from stress-ng.h. -/
def EXIT_NOT_IMPLEMENTED : Nat := 4

/-- Aggregation kind argument of `stress_metrics_set` calls that pass one
(`STRESS_METRIC_HARMONIC_MEAN` in stress-dfp.c, `STRESS_HARMONIC_MEAN` in
stress-prime.c). -/
inductive StressMetricAgg
  | geometricMean
  | harmonicMean
deriving DecidableEq, Repr

/-! ## stress-dfp.c : data model -/

def LOOPS_PER_CALL : Nat := 65536
def DFP_ELEMENTS : Nat := 8

/-- The decimal floating point type tags `STRESS_DFP_TYPE_*`. -/
inductive DfpType
  | decimal32
  | decimal64
  | decimal128
  | all
deriving DecidableEq, Repr

/-- Registry entry of `stress_dfp_funcs`: name and `dfp_type`
(the mutable `duration`/`ops` fields are threaded separately as `DfpStats`). -/
structure DfpFuncEntry where
  name : String
  dfp_type : DfpType
deriving DecidableEq, Repr

/-- The `stress_dfp_funcs` registry with every `HAVE_Decimal*` feature
present, in declaration order: the synthetic "all" entry at index 0 then the
nine concrete variants. -/
def stress_dfp_funcs : List DfpFuncEntry :=
  [⟨"all", .all⟩,
   ⟨"df32add", .decimal32⟩, ⟨"df64add", .decimal64⟩, ⟨"df128add", .decimal128⟩,
   ⟨"df32mul", .decimal32⟩, ⟨"df64mul", .decimal64⟩, ⟨"df128mul", .decimal128⟩,
   ⟨"df32div", .decimal32⟩, ⟨"df64div", .decimal64⟩, ⟨"df128div", .decimal128⟩]

def STRESS_NUM_DFP_FUNCS : Nat := stress_dfp_funcs.length

/-- `dfp_type` of registry entry `method` (out-of-range lookups default to
the "all" tag; they are never reached by in-range calls). -/
def dfpTypeOf (method : Nat) : DfpType :=
  (stress_dfp_funcs.getD method ⟨"all", .all⟩).dfp_type

/-- Per-entry mutable stats `{ duration, ops }` (C doubles, modelled as ℚ). -/
structure DfpStats where
  duration : Rat
  ops : Rat
deriving DecidableEq, Repr

/-- One element's pair of result-slot byte representations
`(d32.r[0], d32.r[1])`, each a 4-byte object representation. -/
abbrev DfpSlots := Nat × Nat

/-- Outcome of the comparison loop at the end of `stress_dfp_call_method`:
the exit status, the `pr_fail` report if one was issued (element index and
the two observed slot representations), and the number of `memcmp` calls
that were executed. -/
structure DfpVerifyResult where
  status : Nat
  fail : Option (Nat × Nat × Nat)
  memcmps : Nat
deriving DecidableEq, Repr

/-- The `for (i = 0; i < DFP_ELEMENTS; i++)` comparison loop of
`stress_dfp_call_method`: for a `_Decimal32` entry each iteration `memcmp`s
the two slots and fails at the first mismatch; for every other type the
`default:` arm of the switch returns `EXIT_SUCCESS` on the first iteration
("should never happen"), before any `memcmp`. -/
def dfpVerifyLoop (t : DfpType) : List DfpSlots → Nat → DfpVerifyResult
  | [], _ => ⟨EXIT_SUCCESS, none, 0⟩
  | (r0, r1) :: rest, i =>
    match t with
    | .decimal32 =>
      if r0 ≠ r1 then
        ⟨EXIT_FAILURE, some (i, r0, r1), 1⟩
      else
        let r := dfpVerifyLoop .decimal32 rest (i + 1)
        ⟨r.status, r.fail, r.memcmps + 1⟩
    | _ => ⟨EXIT_SUCCESS, none, 0⟩

/-- Result of one `stress_dfp_call_method` call: the returned status, the
called entry's updated stats record, whether the second (verification)
invocation of the variant was performed, and the comparison-loop outcome. -/
structure DfpCallResult where
  status : Nat
  stats : DfpStats
  secondPass : Bool
  fail : Option (Nat × Nat × Nat)
  memcmps : Nat
deriving DecidableEq, Repr

/-- `stress_dfp_call_method`.  `stats` is the called entry's current stats
record (`func = &stress_dfp_funcs[method]`).  `dt0` is the duration returned
by the first `func->dfp_func(args, dfp_data, 0)` invocation and `dt1` the one
returned by the second (slot 1) invocation when it happens; `contAfter2` is
the value `stress_continue_flag()` reads after the second invocation, and
`data` the element slot-pairs at comparison time. -/
def stress_dfp_call_method (stats : DfpStats) (method : Nat) (verify : Bool)
    (dt0 dt1 : Rat) (contAfter2 : Bool) (data : List DfpSlots) : DfpCallResult :=
  let stats1 : DfpStats :=
    ⟨stats.duration + dt0, stats.ops + (DFP_ELEMENTS * LOOPS_PER_CALL : Nat)⟩
  if 0 < method ∧ (method < STRESS_NUM_DFP_FUNCS ∧ verify = true) then
    if dt1 < 0 then
      ⟨EXIT_FAILURE, stats1, true, none, 0⟩
    else
      let stats2 : DfpStats :=
        ⟨stats1.duration + dt1, stats1.ops + (DFP_ELEMENTS * LOOPS_PER_CALL : Nat)⟩
      if contAfter2 = false then
        ⟨EXIT_SUCCESS, stats2, true, none, 0⟩
      else
        let v := dfpVerifyLoop (dfpTypeOf method) data 0
        ⟨v.status, stats2, true, v.fail, v.memcmps⟩
  else
    ⟨EXIT_SUCCESS, stats1, false, none, 0⟩

/-- In-table accumulation of `stress_dfp_call_method`: the table maps each
registry index to its stats record, and only the called index's record is
written (`func->duration += ...; func->ops += ...`).  Returns the updated
table and the call's status. -/
def dfpCallMethodUpd (tbl : Nat → DfpStats) (method : Nat) (verify : Bool)
    (dt0 dt1 : Rat) (contAfter2 : Bool) (data : List DfpSlots) :
    (Nat → DfpStats) × Nat :=
  let r := stress_dfp_call_method (tbl method) method verify dt0 dt1 contAfter2 data
  (fun j => if j = method then r.stats else tbl j, r.status)

/-- The loop of `stress_dfp_all` over a list of registry indices: each index
is dispatched through `stress_dfp_call_method` (status supplied by
`callStatus`), short-circuiting with `-1.0` as soon as a sub-call returns
`EXIT_FAILURE`.  Returns the list of indices actually invoked and the
returned duration. -/
def dfpAllGo (callStatus : Nat → Nat) : List Nat → List Nat × Rat
  | [] => ([], 0)
  | i :: rest =>
    if callStatus i = EXIT_FAILURE then
      ([i], -1)
    else
      let r := dfpAllGo callStatus rest
      (i :: r.1, r.2)

/-- `stress_dfp_all`: iterates `i = 1 .. STRESS_NUM_DFP_FUNCS - 1`, calling
`stress_dfp_call_method` on each, returning `-1.0` at the first failure and
`0.0` after all sub-calls. -/
def stress_dfp_all (callStatus : Nat → Nat) : List Nat × Rat :=
  dfpAllGo callStatus (List.range' 1 (STRESS_NUM_DFP_FUNCS - 1))

/-- One metric emitted by the shutdown loop of `stress_dfp`: the metric slot
(`i - 1`), the registry index `i` it came from, the computed `rate`
(`ops / duration`), the value passed to `stress_metrics_set`
(`rate / 1000000.0`, labelled "Mdfp-ops per sec"), and the aggregation-kind
argument. -/
structure DfpMetric where
  index : Nat
  funcIndex : Nat
  rate : Rat
  value : Rat
  agg : StressMetricAgg
deriving DecidableEq, Repr

/-- The shutdown reporting loop of `stress_dfp` over a list of registry
indices: each index whose stats have `duration > 0.0` and `ops > 0.0` emits
one harmonic-mean metric with `rate = ops / duration`. -/
def dfpReportGo (statsOf : Nat → DfpStats) : List Nat → List DfpMetric
  | [] => []
  | i :: rest =>
    let s := statsOf i
    if 0 < s.duration ∧ 0 < s.ops then
      ⟨i - 1, i, s.ops / s.duration, s.ops / s.duration / 1000000,
        .harmonicMean⟩ :: dfpReportGo statsOf rest
    else
      dfpReportGo statsOf rest

/-- The `for (i = 1; i < STRESS_NUM_DFP_FUNCS; i++)` reporting loop of
`stress_dfp`: index 0 (the "all" entry) is never visited. -/
def stress_dfp_report (statsOf : Nat → DfpStats) : List DfpMetric :=
  dfpReportGo statsOf (List.range' 1 (STRESS_NUM_DFP_FUNCS - 1))

/-- The `do { ... } while (stress_continue(args))` loop of `stress_dfp`:
call `n` is performed, the loop breaks with `EXIT_FAILURE` if it failed,
and otherwise continues while the stop condition allows `budget` more
iterations.  Returns the final `rc` and the number of calls performed. -/
def dfpMainLoop (callStatus : Nat → Nat) : Nat → Nat → Nat × Nat
  | n, budget =>
    if callStatus n = EXIT_FAILURE then
      (EXIT_FAILURE, n + 1)
    else
      match budget with
      | 0 => (EXIT_SUCCESS, n + 1)
      | b + 1 => dfpMainLoop callStatus (n + 1) b
  termination_by _ budget => budget

/-- Outcome of one `stress_dfp` run: the returned status, the number of
top-level `stress_dfp_call_method` calls performed by the main loop, and the
metrics emitted at shutdown. -/
structure DfpRun where
  status : Nat
  calls : Nat
  metrics : List DfpMetric
deriving DecidableEq, Repr

/-- `stress_dfp`: if the `stress_mmap_populate` of the dfp data fails
(`MAP_FAILED`) the run returns `EXIT_NO_RESOURCE` at once — no main-loop
call, no metric, no retry.  Otherwise the main loop runs and the shutdown
loop reports the final stats (`statsOf`). -/
def stress_dfp (mmapFailed : Bool) (callStatus : Nat → Nat) (budget : Nat)
    (statsOf : Nat → DfpStats) : DfpRun :=
  if mmapFailed then
    ⟨EXIT_NO_RESOURCE, 0, []⟩
  else
    let r := dfpMainLoop callStatus 0 budget
    ⟨r.1, r.2, stress_dfp_report statsOf⟩

/-! ## stress-ipsec-mb.c : data model -/

/-- One `stress_ipsec_features_t` entry of `mb_features`: the `supported`
flag and the mutable `stats` record (`capability_mask`, `init_func` and
`name` do not affect the dispatch logic modelled here). -/
structure MbFeature where
  supported : Bool
  dur : Rat
  ops : Rat
deriving DecidableEq, Repr

/-- Names of the `stress_ipsec_funcs` registry, in declaration order. -/
def stress_ipsec_funcs : List String :=
  ["all", "cmac", "ctr", "des", "hmac-md5", "hmac-sha1", "hmac-sha512", "sha"]

/-- Names of the `mb_features` descriptor table, in declaration order. -/
def mb_features_names : List String := ["avx", "avx2", "avx512", "noaesni", "sse"]

/-- The indices of the supported descriptors of a feature table, in table
order, starting the numbering at `i`. -/
def supportedIdxAux : List MbFeature → Nat → List Nat
  | [], _ => []
  | f :: rest, i =>
    if f.supported then i :: supportedIdxAux rest (i + 1)
    else supportedIdxAux rest (i + 1)

/-- The indices of the supported descriptors of a feature table, in order. -/
def supportedIdx (fs : List MbFeature) : List Nat := supportedIdxAux fs 0

/-- The `for (i = 0; ...)` loop of `stress_ipsec_call_func` starting at
absolute feature index `i`: every supported descriptor gets one invocation
of the selected method function, timed into its own stats record
(`d k` / `o k` are the measured duration and bogo-op delta of the invocation
run under descriptor `k`).  Returns the updated table and the trace of
descriptor indices under which the method was invoked. -/
def ipsecCallGo (d o : Nat → Rat) : List MbFeature → Nat → List MbFeature × List Nat
  | [], _ => ([], [])
  | f :: rest, i =>
    let r := ipsecCallGo d o rest (i + 1)
    if f.supported then
      (⟨f.supported, f.dur + d i, f.ops + o i⟩ :: r.1, i :: r.2)
    else
      (f :: r.1, r.2)

/-- `stress_ipsec_call_func`: one invocation of the selected method per
supported descriptor, each accumulating its own duration and ops. -/
def stress_ipsec_call_func (fs : List MbFeature) (d o : Nat → Rat) :
    List MbFeature × List Nat :=
  ipsecCallGo d o fs 0

/-- The `Running` loop body of `stress_ipsec_mb` (one pass of the do/while)
over a list of outer feature indices: for every supported descriptor `i` it
calls `stress_ipsec_call_func`, which itself iterates all supported
descriptors.  `d i j` / `o i j` are the measured duration and op delta of the
inner invocation under descriptor `j` during the outer pass for `i`.  The
trace collects `(outer, inner)` pairs, one per method invocation. -/
def ipsecMainGo (d o : Nat → Nat → Rat) :
    List Nat → List MbFeature → List MbFeature × List (Nat × Nat)
  | [], fs => (fs, [])
  | i :: rest, fs =>
    if (fs.getD i ⟨false, 0, 0⟩).supported then
      let r := stress_ipsec_call_func fs (d i) (o i)
      let r2 := ipsecMainGo d o rest r.1
      (r2.1, (r.2.map fun j => (i, j)) ++ r2.2)
    else
      ipsecMainGo d o rest fs

/-- One full pass of the `Running` loop of `stress_ipsec_mb` (no pinned
feature override): outer iteration over the whole `mb_features` table. -/
def ipsecMainPass (fs : List MbFeature) (d o : Nat → Nat → Rat) :
    List MbFeature × List (Nat × Nat) :=
  ipsecMainGo d o (List.range fs.length) fs

/-- The loop of `stress_ipsec_all` over method indices: each iteration first
checks `keep_stressing(args)` and stops as soon as it is false, otherwise
dispatches the method through `stress_ipsec_call_func`.  Returns the indices
dispatched. -/
def ipsecAllGo (keep : Nat → Bool) : List Nat → List Nat
  | [] => []
  | i :: rest =>
    if keep i then i :: ipsecAllGo keep rest
    else []

/-- `stress_ipsec_all`: `for (i = 1; keep_stressing(args) && (i < 8); i++)`
over the non-"all" entries of `stress_ipsec_funcs`. -/
def stress_ipsec_all (keep : Nat → Bool) : List Nat :=
  ipsecAllGo keep (List.range' 1 (stress_ipsec_funcs.length - 1))

/-- One metric emitted by the shutdown loop of `stress_ipsec_mb`: the metric
slot `j`, the feature index it came from, and the rate `ops / duration`.
The `stress_metrics_set(args, j, tmp, rate)` call at this site passes no
aggregation-kind argument. -/
structure IpsecMetric where
  index : Nat
  featureIndex : Nat
  rate : Rat
deriving DecidableEq, Repr

/-- The shutdown reporting loop of `stress_ipsec_mb`: descriptors with
`stats->duration > 0.0` emit one metric each, numbered consecutively by `j`. -/
def ipsecReportGo : List MbFeature → Nat → Nat → List IpsecMetric
  | [], _, _ => []
  | f :: rest, i, j =>
    if 0 < f.dur then
      ⟨j, i, f.ops / f.dur⟩ :: ipsecReportGo rest (i + 1) (j + 1)
    else
      ipsecReportGo rest (i + 1) j

/-- The `for (i = 0, j = 0; ...)` reporting loop of `stress_ipsec_mb`. -/
def stress_ipsec_report (fs : List MbFeature) : List IpsecMetric :=
  ipsecReportGo fs 0 0

/-! ## stress-ipsec-mb.c : allocation-failure paths -/

/-- Outcome of one invocation of an ipsec method function with respect to its
per-call aligned buffer allocation (`stress_alloc_aligned` at the top of
`stress_ipsec_sha` and the other method functions): the allocation is always
attempted; on failure the function returns immediately, having submitted no
job. -/
structure IpsecMethodCall where
  allocAttempted : Bool
  didWork : Bool
deriving DecidableEq, Repr

/-- `stress_ipsec_sha` reduced to its allocation behaviour: allocate the
aligned `auth_data` buffer; `if (!auth_data) return;` — otherwise submit the
jobs.  (`des`, `cmac`, `ctr` and the `hmac_*` functions share this exact
early-return shape.) -/
def stress_ipsec_sha (allocOK : Bool) : IpsecMethodCall :=
  if allocOK then ⟨true, true⟩ else ⟨true, false⟩

/-- The `Running` do/while loop of `stress_ipsec_mb` reduced to the method
invocations of `passes` passes: pass `n` invokes the method function, which
attempts its per-call buffer allocation anew (`allocOK n`); a failed per-call
allocation never breaks the loop. -/
def ipsecRunLoop (allocOK : Nat → Bool) : Nat → List IpsecMethodCall
  | 0 => []
  | n + 1 => ipsecRunLoop allocOK n ++ [stress_ipsec_sha (allocOK n)]

/-- The setup-and-run path of `stress_ipsec_mb` reduced to what decides the
exit status: the library version check, the `alloc_mb_mgr` manager
allocation (`EXIT_NO_RESOURCE` on failure, before any main-loop pass), the
got-features check, then the main loop. -/
def stress_ipsec_mb (versionOK mgrAllocOK gotFeatures : Bool)
    (allocOK : Nat → Bool) (passes : Nat) : Nat × List IpsecMethodCall :=
  if versionOK = false then
    (EXIT_NOT_IMPLEMENTED, [])
  else if mgrAllocOK = false then
    (EXIT_NO_RESOURCE, [])
  else if gotFeatures = false then
    (EXIT_NOT_IMPLEMENTED, [])
  else
    (EXIT_SUCCESS, ipsecRunLoop allocOK passes)

/-! ## stress-prime.c : signal handler and finish path -/

/-- The observable state the alarm handler works on: the run's continue flag
(`stress_continue_set_flag`) and the handler's static `count`. -/
structure PrimeSigState where
  contFlag : Bool
  count : Nat
deriving DecidableEq, Repr

/-- `stress_prime_alarm_handler`: clears the continue flag, increments the
static `count`, and performs `siglongjmp(jmpbuf, 1)` only when
`count > 1` after the increment.  Returns the new state and whether the
`siglongjmp` fired. -/
def stress_prime_alarm_handler (s : PrimeSigState) : PrimeSigState × Bool :=
  let s2 : PrimeSigState := ⟨false, s.count + 1⟩
  (s2, decide (s2.count > 1))

/-- One metric as emitted by `stress_prime`: the rate value and the
aggregation-kind argument (`STRESS_HARMONIC_MEAN`). -/
structure PrimeMetric where
  rate : Rat
  agg : StressMetricAgg
deriving DecidableEq, Repr

/-- Outcome of the `finish:` tail of `stress_prime`: whether
`mpz_clears` ran, the metrics emitted, and the returned status. -/
structure PrimeFinish where
  mpzCleared : Bool
  metrics : List PrimeMetric
  status : Nat
deriving DecidableEq, Repr

/-- The `finish:` tail of `stress_prime`: `mpz_clears` runs only when the
run did not arrive here through `siglongjmp` (`!jumped`); the rate is
`ops / duration` guarded by `duration > 0.0` (otherwise `0.0`); exactly one
harmonic-mean metric is emitted, unconditionally; the function returns
`EXIT_SUCCESS`. -/
def stress_prime_finish (jumped : Bool) (ops : Nat) (duration : Rat) : PrimeFinish :=
  { mpzCleared := !jumped
    metrics := [⟨if 0 < duration then (ops : Rat) / duration else 0, .harmonicMean⟩]
    status := EXIT_SUCCESS }

/-! ## Claim C1 : negative-duration sentinel and stats accumulation -/

/-- C1 counterexample: the first (production) invocation inside
`stress_dfp_call_method` accumulates unconditionally.  Calling the "all"
entry (method 0, verification off) with its invoke returning the `-1.0`
abort sentinel still adds the negative delta to `duration` and the fixed op
count to `ops`, so the stats record is not left unchanged. -/
theorem dfp_negative_duration_cex :
    ((-1 : Rat) < 0) ∧
    (stress_dfp_call_method ⟨0, 0⟩ 0 false (-1) 0 true []).stats = ⟨-1, 524288⟩ ∧
    (stress_dfp_call_method ⟨0, 0⟩ 0 false (-1) 0 true []).stats ≠ ⟨0, 0⟩ := by
  refine ⟨by norm_num, ?_, ?_⟩ <;>
    simp [stress_dfp_call_method, STRESS_NUM_DFP_FUNCS, DFP_ELEMENTS, LOOPS_PER_CALL,
      stress_dfp_funcs, DfpStats.mk.injEq]

/-- C1 (amended): only the second (verification) pass treats a negative
returned duration as the abort sentinel: in that case `stress_dfp_call_method`
returns `EXIT_FAILURE` without accumulating the second pass's delta or op
count.  The first pass always accumulates its returned duration — negative
or not — together with the fixed op count, and when no verification pass
runs the stats record receives exactly the first pass's contribution. -/
theorem dfp_negative_duration_accumulation (stats : DfpStats) (method : Nat)
    (verify : Bool) (dt0 dt1 : Rat) (c : Bool) (data : List DfpSlots) :
    ((stress_dfp_call_method stats method verify dt0 dt1 c data).stats.duration =
        stats.duration + dt0 ∨
      (stress_dfp_call_method stats method verify dt0 dt1 c data).stats.duration =
        stats.duration + dt0 + dt1) ∧
    ((0 < method ∧ (method < STRESS_NUM_DFP_FUNCS ∧ verify = true)) → dt1 < 0 →
      (stress_dfp_call_method stats method verify dt0 dt1 c data).status = EXIT_FAILURE ∧
      (stress_dfp_call_method stats method verify dt0 dt1 c data).stats =
        ⟨stats.duration + dt0, stats.ops + (DFP_ELEMENTS * LOOPS_PER_CALL : Nat)⟩) ∧
    (¬(0 < method ∧ (method < STRESS_NUM_DFP_FUNCS ∧ verify = true)) →
      (stress_dfp_call_method stats method verify dt0 dt1 c data).stats =
        ⟨stats.duration + dt0, stats.ops + (DFP_ELEMENTS * LOOPS_PER_CALL : Nat)⟩) := by
  simp only [stress_dfp_call_method]
  split_ifs with h1 h2 h3 <;> simp_all

/-- C1 witness: a verification call of method 1 whose second pass returns
`-1.0` fails without accumulating the second pass, while the first pass's
duration 2 and op count are accumulated. -/
theorem dfp_negative_duration_witness :
    (0 < 1 ∧ (1 < STRESS_NUM_DFP_FUNCS ∧ true = true)) ∧ ((-1 : Rat) < 0) ∧
    (stress_dfp_call_method ⟨0, 0⟩ 1 true 2 (-1) true []).status = EXIT_FAILURE ∧
    (stress_dfp_call_method ⟨0, 0⟩ 1 true 2 (-1) true []).stats =
      ⟨(0 : Rat) + 2, (0 : Rat) + (DFP_ELEMENTS * LOOPS_PER_CALL : Nat)⟩ := by
  have hcond : 0 < 1 ∧ (1 < STRESS_NUM_DFP_FUNCS ∧ true = true) := by
    refine ⟨Nat.one_pos, ?_, rfl⟩
    simp [STRESS_NUM_DFP_FUNCS, stress_dfp_funcs]
  have hdt : (-1 : Rat) < 0 := by norm_num
  have h := (dfp_negative_duration_accumulation ⟨0, 0⟩ 1 true 2 (-1) true []).2.1 hcond hdt
  exact ⟨hcond, hdt, h.1, h.2⟩

/-! ## Helper lemmas : the dfp comparison loop -/

/-- For every type other than `_Decimal32` the comparison loop returns
success immediately — no `memcmp`, no failure report. -/
theorem dfpVerifyLoop_non_d32 (t : DfpType) (ht : t ≠ .decimal32)
    (l : List DfpSlots) (i : Nat) :
    dfpVerifyLoop t l i = ⟨EXIT_SUCCESS, none, 0⟩ := by
  cases l with
  | nil => rfl
  | cons p rest =>
    obtain ⟨r0, r1⟩ := p
    cases t with
    | decimal32 => exact absurd rfl ht
    | decimal64 => rfl
    | decimal128 => rfl
    | all => rfl

/-- The `_Decimal32` comparison loop succeeds exactly when every element's
two slot representations are identical, and in that case reports nothing. -/
theorem dfpVerifyLoop_d32_success (l : List DfpSlots) :
    ∀ i, ((dfpVerifyLoop .decimal32 l i).status = EXIT_SUCCESS ↔
        ∀ p ∈ l, p.1 = p.2) ∧
      ((dfpVerifyLoop .decimal32 l i).fail = none ↔ ∀ p ∈ l, p.1 = p.2) := by
  induction l with
  | nil => intro i; simp [dfpVerifyLoop]
  | cons p rest ih =>
    intro i
    obtain ⟨r0, r1⟩ := p
    by_cases h : r0 = r1
    · subst h
      simpa [dfpVerifyLoop] using ih (i + 1)
    · simp [dfpVerifyLoop, h, EXIT_FAILURE, EXIT_SUCCESS]

/-- The `_Decimal32` comparison loop at the first mismatching element: if
elements `0 .. k-1` agree and element `k` differs, the loop stops after
`k + 1` `memcmp`s, returns `EXIT_FAILURE` and reports element `i + k`
together with both observed representations. -/
theorem dfpVerifyLoop_d32_mismatch (l : List DfpSlots) :
    ∀ i k, k < l.length →
      (∀ j, j < k → (l.getD j (0, 0)).1 = (l.getD j (0, 0)).2) →
      (l.getD k (0, 0)).1 ≠ (l.getD k (0, 0)).2 →
      dfpVerifyLoop .decimal32 l i =
        ⟨EXIT_FAILURE, some (i + k, (l.getD k (0, 0)).1, (l.getD k (0, 0)).2),
          k + 1⟩ := by
  induction l with
  | nil => intro i k hk; exact absurd hk (by simp)
  | cons p rest ih =>
    intro i k hk hpre hmis
    obtain ⟨r0, r1⟩ := p
    cases k with
    | zero =>
      simp only [List.getD_cons_zero] at hmis
      simp [dfpVerifyLoop, hmis]
    | succ k =>
      have h0 : r0 = r1 := by
        have := hpre 0 (Nat.succ_pos k)
        simpa using this
      subst h0
      have hrest := ih (i + 1) k (by simpa using hk)
        (fun j hj => by simpa using hpre (j + 1) (Nat.succ_lt_succ hj))
        (by simpa using hmis)
      simp only [List.getD_cons_succ]
      simp [dfpVerifyLoop, hrest]
      omega

/-! ## Claim C3 : when the second pass runs, and the interrupted-pass skip -/

/-- C3: the verification (second) pass is performed exactly when
verification is enabled and the method is a concrete in-range variant
(index > 0); and if the run's continue flag is false after that second pass
(and the pass returned a genuine, non-negative duration), the byte
comparison is skipped entirely — no `memcmp`, no failure report — and the
call returns `EXIT_SUCCESS`. -/
theorem dfp_second_pass_iff_and_interrupt_skip (stats : DfpStats) (method : Nat)
    (verify : Bool) (dt0 dt1 : Rat) (c : Bool) (data : List DfpSlots) :
    ((stress_dfp_call_method stats method verify dt0 dt1 c data).secondPass = true ↔
      (0 < method ∧ (method < STRESS_NUM_DFP_FUNCS ∧ verify = true))) ∧
    ((0 < method ∧ (method < STRESS_NUM_DFP_FUNCS ∧ verify = true)) → 0 ≤ dt1 →
      c = false →
      (stress_dfp_call_method stats method verify dt0 dt1 c data).status =
        EXIT_SUCCESS ∧
      (stress_dfp_call_method stats method verify dt0 dt1 c data).fail = none ∧
      (stress_dfp_call_method stats method verify dt0 dt1 c data).memcmps = 0) := by
  constructor
  · simp only [stress_dfp_call_method]
    split_ifs with h1 h2 h3 <;> simp [h1]
  · intro h1 hdt hc
    have hres : stress_dfp_call_method stats method verify dt0 dt1 c data =
        ⟨EXIT_SUCCESS,
          ⟨stats.duration + dt0 + dt1,
            stats.ops + (DFP_ELEMENTS * LOOPS_PER_CALL : Nat) +
              (DFP_ELEMENTS * LOOPS_PER_CALL : Nat)⟩,
          true, none, 0⟩ := by
      simp only [stress_dfp_call_method]
      rw [if_pos h1, if_neg (not_lt.mpr hdt), if_pos hc]
    rw [hres]
    exact ⟨rfl, rfl, rfl⟩

/-- C3 witness: method 1 with verification on, a non-negative second-pass
duration and the continue flag cleared: the second pass was performed, the
mismatching data is never compared, and the call succeeds. -/
theorem dfp_second_pass_witness :
    ((stress_dfp_call_method ⟨0, 0⟩ 1 true 0 0 false [(1, 2)]).secondPass = true) ∧
    (0 < 1 ∧ (1 < STRESS_NUM_DFP_FUNCS ∧ true = true)) ∧ ((0 : Rat) ≤ 0) ∧
    ((stress_dfp_call_method ⟨0, 0⟩ 1 true 0 0 false [(1, 2)]).status =
      EXIT_SUCCESS) ∧
    ((stress_dfp_call_method ⟨0, 0⟩ 1 true 0 0 false [(1, 2)]).fail = none) ∧
    ((stress_dfp_call_method ⟨0, 0⟩ 1 true 0 0 false [(1, 2)]).memcmps = 0) := by
  have hcond : 0 < 1 ∧ (1 < STRESS_NUM_DFP_FUNCS ∧ true = true) := by
    refine ⟨Nat.one_pos, ?_, rfl⟩
    simp [STRESS_NUM_DFP_FUNCS, stress_dfp_funcs]
  have h := dfp_second_pass_iff_and_interrupt_skip ⟨0, 0⟩ 1 true 0 0 false [(1, 2)]
  have h2 := h.2 hcond le_rfl rfl
  exact ⟨h.1.mpr hcond, hcond, le_rfl, h2.1, h2.2.1, h2.2.2⟩

/-! ## Claim C4 : non-Decimal32 variants are exempt from comparison -/

/-- C4: for every in-range concrete method whose `dfp_type` is not
`_Decimal32` (i.e. the `_Decimal64` and `_Decimal128` variants), a verified
call returns `EXIT_SUCCESS` with no failure report and no byte comparison,
whatever the contents of the two result slots: the `default:` arm of the
comparison switch exempts these variants. -/
theorem dfp_non_d32_always_success (stats : DfpStats) (method : Nat)
    (dt0 dt1 : Rat) (c : Bool) (data : List DfpSlots)
    (h1 : 0 < method) (h2 : method < STRESS_NUM_DFP_FUNCS)
    (ht : dfpTypeOf method ≠ .decimal32) (hdt : 0 ≤ dt1) :
    (stress_dfp_call_method stats method true dt0 dt1 c data).status =
      EXIT_SUCCESS ∧
    (stress_dfp_call_method stats method true dt0 dt1 c data).fail = none ∧
    (stress_dfp_call_method stats method true dt0 dt1 c data).memcmps = 0 := by
  simp only [stress_dfp_call_method]
  rw [if_pos ⟨h1, h2, by trivial⟩, if_neg (not_lt.mpr hdt)]
  by_cases hc : c = false
  · rw [if_pos hc]; exact ⟨rfl, rfl, rfl⟩
  · rw [if_neg hc, dfpVerifyLoop_non_d32 _ ht]
    exact ⟨rfl, rfl, rfl⟩

/-- C4 witness: the `_Decimal64` add variant (method 2) with thoroughly
mismatching result slots still verifies as success. -/
theorem dfp_non_d32_witness :
    (0 < 2 ∧ 2 < STRESS_NUM_DFP_FUNCS ∧ dfpTypeOf 2 ≠ .decimal32 ∧ ((0 : Rat) ≤ 0)) ∧
    (stress_dfp_call_method ⟨0, 0⟩ 2 true 0 0 true
        [(1, 2), (3, 4), (5, 6), (7, 8), (9, 10), (11, 12), (13, 14), (15, 16)]).status =
      EXIT_SUCCESS ∧
    (stress_dfp_call_method ⟨0, 0⟩ 2 true 0 0 true
        [(1, 2), (3, 4), (5, 6), (7, 8), (9, 10), (11, 12), (13, 14), (15, 16)]).fail =
      none := by
  have hn : 2 < STRESS_NUM_DFP_FUNCS := by
    simp [STRESS_NUM_DFP_FUNCS, stress_dfp_funcs]
  have ht : dfpTypeOf 2 ≠ .decimal32 := by
    simp [dfpTypeOf, stress_dfp_funcs]
  have h := dfp_non_d32_always_success ⟨0, 0⟩ 2 0 0 true
    [(1, 2), (3, 4), (5, 6), (7, 8), (9, 10), (11, 12), (13, 14), (15, 16)]
    (by omega) hn ht le_rfl
  exact ⟨⟨by omega, hn, ht, le_rfl⟩, h.1, h.2.1⟩

/-! ## Claim C5 : Decimal32 byte-for-byte verification -/

/-- C5: for an in-range `_Decimal32` method with verification enabled and
the continue flag still set, the call succeeds exactly when all 8 elements'
slot representations are byte-identical; and at the first mismatching
element (index order) it stops — `k + 1` comparisons — returning
`EXIT_FAILURE` and reporting that element's index with both observed
values. -/
theorem dfp_d32_verify_first_mismatch (stats : DfpStats) (method : Nat)
    (dt0 dt1 : Rat) (data : List DfpSlots)
    (h1 : 0 < method) (h2 : method < STRESS_NUM_DFP_FUNCS)
    (ht : dfpTypeOf method = .decimal32) (hdt : 0 ≤ dt1)
    (hlen : data.length = DFP_ELEMENTS) :
    ((stress_dfp_call_method stats method true dt0 dt1 true data).status =
        EXIT_SUCCESS ↔ ∀ p ∈ data, p.1 = p.2) ∧
    (∀ k, k < DFP_ELEMENTS →
      (∀ j, j < k → (data.getD j (0, 0)).1 = (data.getD j (0, 0)).2) →
      (data.getD k (0, 0)).1 ≠ (data.getD k (0, 0)).2 →
      (stress_dfp_call_method stats method true dt0 dt1 true data).status =
        EXIT_FAILURE ∧
      (stress_dfp_call_method stats method true dt0 dt1 true data).fail =
        some (k, (data.getD k (0, 0)).1, (data.getD k (0, 0)).2) ∧
      (stress_dfp_call_method stats method true dt0 dt1 true data).memcmps =
        k + 1) := by
  have hres : stress_dfp_call_method stats method true dt0 dt1 true data =
      ⟨(dfpVerifyLoop .decimal32 data 0).status,
        ⟨stats.duration + dt0 + dt1,
          stats.ops + (DFP_ELEMENTS * LOOPS_PER_CALL : Nat) +
            (DFP_ELEMENTS * LOOPS_PER_CALL : Nat)⟩,
        true, (dfpVerifyLoop .decimal32 data 0).fail,
        (dfpVerifyLoop .decimal32 data 0).memcmps⟩ := by
    simp only [stress_dfp_call_method]
    rw [if_pos ⟨h1, h2, by trivial⟩, if_neg (not_lt.mpr hdt),
      if_neg (by simp), ht]
  constructor
  · rw [hres]
    exact (dfpVerifyLoop_d32_success data 0).1
  · intro k hk hpre hmis
    have hm := dfpVerifyLoop_d32_mismatch data 0 k (hlen ▸ hk) hpre hmis
    rw [hres, hm]
    exact ⟨rfl, by simp, rfl⟩

/-- C5 witness: the `_Decimal32` add variant (method 1) on data agreeing at
elements 0 and 1 and differing first at element 2 fails verification there,
after exactly 3 comparisons, reporting both observed values; and the success
characterization rules out success for this data. -/
theorem dfp_d32_verify_witness :
    (stress_dfp_call_method ⟨0, 0⟩ 1 true 0 0 true
        [(5, 5), (6, 6), (7, 9), (0, 0), (0, 0), (0, 0), (0, 0), (1, 2)]).status =
      EXIT_FAILURE ∧
    (stress_dfp_call_method ⟨0, 0⟩ 1 true 0 0 true
        [(5, 5), (6, 6), (7, 9), (0, 0), (0, 0), (0, 0), (0, 0), (1, 2)]).fail =
      some (2, 7, 9) ∧
    (stress_dfp_call_method ⟨0, 0⟩ 1 true 0 0 true
        [(5, 5), (6, 6), (7, 9), (0, 0), (0, 0), (0, 0), (0, 0), (1, 2)]).memcmps =
      3 := by
  have h := dfp_d32_verify_first_mismatch ⟨0, 0⟩ 1 0 0
    [(5, 5), (6, 6), (7, 9), (0, 0), (0, 0), (0, 0), (0, 0), (1, 2)]
    Nat.one_pos (by simp [STRESS_NUM_DFP_FUNCS, stress_dfp_funcs])
    (by simp [dfpTypeOf, stress_dfp_funcs]) le_rfl (by simp [DFP_ELEMENTS])
  have h2 := h.2 2 (by simp [DFP_ELEMENTS])
    (by decide) (by decide)
  exact h2

/-! ## Helper lemmas : the "all" aggregator loops -/

/-- When no sub-call fails, the `stress_dfp_all` loop runs every listed
index in order and returns `0.0`. -/
theorem dfpAllGo_ok (cs : Nat → Nat) (l : List Nat)
    (h : ∀ i ∈ l, cs i ≠ EXIT_FAILURE) : dfpAllGo cs l = (l, 0) := by
  induction l with
  | nil => rfl
  | cons i rest ih =>
    simp only [dfpAllGo]
    rw [if_neg (h i (List.mem_cons_self i rest)),
      ih (fun j hj => h j (List.mem_cons_of_mem i hj))]

/-- The `stress_dfp_all` loop short-circuits at the first failing index:
exactly the indices up to and including it are invoked and `-1.0` is
returned. -/
theorem dfpAllGo_fail (cs : Nat → Nat) :
    ∀ (n s k : Nat), k < n → cs (s + k) = EXIT_FAILURE →
      (∀ j, j < k → cs (s + j) ≠ EXIT_FAILURE) →
      dfpAllGo cs (List.range' s n) = (List.range' s (k + 1), -1) := by
  intro n
  induction n with
  | zero => intro s k hk; exact absurd hk (Nat.not_lt_zero k)
  | succ n ih =>
    intro s k hk hfail hpre
    rw [List.range'_succ]
    cases k with
    | zero =>
      simp only [Nat.add_zero] at hfail
      simp [dfpAllGo, hfail, List.range'_one]
    | succ k =>
      have hs : cs s ≠ EXIT_FAILURE := by
        have := hpre 0 (Nat.succ_pos k)
        simpa using this
      have hrec := ih (s + 1) k (Nat.lt_of_succ_lt_succ hk)
        (by rw [show s + 1 + k = s + (k + 1) by omega]; exact hfail)
        (fun j hj => by
          rw [show s + 1 + j = s + (j + 1) by omega]
          exact hpre (j + 1) (Nat.succ_lt_succ hj))
      simp only [dfpAllGo]
      rw [if_neg hs, hrec]
      simp [List.range'_succ]

/-- Every index invoked by the `stress_dfp_all` loop comes from its index
list. -/
theorem dfpAllGo_trace_subset (cs : Nat → Nat) (l : List Nat) :
    ∀ x ∈ (dfpAllGo cs l).1, x ∈ l := by
  induction l with
  | nil => intro x hx; simp [dfpAllGo] at hx
  | cons i rest ih =>
    intro x hx
    simp only [dfpAllGo] at hx
    by_cases h : cs i = EXIT_FAILURE
    · rw [if_pos h] at hx
      simp only [List.mem_singleton] at hx
      simp [hx]
    · rw [if_neg h] at hx
      rcases List.mem_cons.mp hx with h1 | h2
      · simp [h1]
      · exact List.mem_cons_of_mem i (ih x h2)

/-- When the stop condition never fires, the `stress_ipsec_all` loop runs
every listed method index. -/
theorem ipsecAllGo_all_true (keep : Nat → Bool) (l : List Nat)
    (h : ∀ i ∈ l, keep i = true) : ipsecAllGo keep l = l := by
  induction l with
  | nil => rfl
  | cons i rest ih =>
    simp only [ipsecAllGo]
    rw [if_pos (h i (List.mem_cons_self i rest)),
      ih (fun j hj => h j (List.mem_cons_of_mem i hj))]

/-- The `stress_ipsec_all` loop stops right before the first index at which
`keep_stressing` reads false. -/
theorem ipsecAllGo_stops (keep : Nat → Bool) :
    ∀ (n s k : Nat), k < n → keep (s + k) = false →
      (∀ j, j < k → keep (s + j) = true) →
      ipsecAllGo keep (List.range' s n) = List.range' s k := by
  intro n
  induction n with
  | zero => intro s k hk; exact absurd hk (Nat.not_lt_zero k)
  | succ n ih =>
    intro s k hk hstop hpre
    rw [List.range'_succ]
    cases k with
    | zero =>
      simp only [Nat.add_zero] at hstop
      simp [ipsecAllGo, hstop]
    | succ k =>
      have hs : keep s = true := by
        have := hpre 0 (Nat.succ_pos k)
        simpa using this
      have hrec := ih (s + 1) k (Nat.lt_of_succ_lt_succ hk)
        (by rw [show s + 1 + k = s + (k + 1) by omega]; exact hstop)
        (fun j hj => by
          rw [show s + 1 + j = s + (j + 1) by omega]
          exact hpre (j + 1) (Nat.succ_lt_succ hj))
      simp only [ipsecAllGo]
      rw [if_pos hs, hrec]
      simp [List.range'_succ]

/-- Every index dispatched by the `stress_ipsec_all` loop comes from its
index list. -/
theorem ipsecAllGo_trace_subset (keep : Nat → Bool) (l : List Nat) :
    ∀ x ∈ ipsecAllGo keep l, x ∈ l := by
  induction l with
  | nil => intro x hx; simp [ipsecAllGo] at hx
  | cons i rest ih =>
    intro x hx
    simp only [ipsecAllGo] at hx
    by_cases h : keep i = true
    · rw [if_pos h] at hx
      rcases List.mem_cons.mp hx with h1 | h2
      · simp [h1]
      · exact List.mem_cons_of_mem i (ih x h2)
    · rw [if_neg h] at hx
      exact absurd hx (List.not_mem_nil x)

/-! ## Claim C6 : the "all" aggregator -/

/-- C6: the dfp "all" entry invokes exactly the registry indices
`1 .. STRESS_NUM_DFP_FUNCS - 1` in order (never itself), returning `0.0`
when no sub-call fails; at the first failing sub-call it short-circuits,
having invoked exactly the indices up to and including it, and returns the
`-1.0` sentinel.  The ipsec "all" dispatches method indices `1 .. 7` in
order (never itself) and stops early at the first index at which
`keep_stressing` reads false. -/
theorem all_aggregator_complete (cs : Nat → Nat) (keep : Nat → Bool) :
    ((∀ i, cs i ≠ EXIT_FAILURE) →
      stress_dfp_all cs = (List.range' 1 (STRESS_NUM_DFP_FUNCS - 1), 0)) ∧
    (∀ k, 1 ≤ k → k < STRESS_NUM_DFP_FUNCS → cs k = EXIT_FAILURE →
      (∀ j, 1 ≤ j → j < k → cs j ≠ EXIT_FAILURE) →
      stress_dfp_all cs = (List.range' 1 k, -1)) ∧
    (0 ∉ (stress_dfp_all cs).1) ∧
    ((∀ i, keep i = true) →
      stress_ipsec_all keep = List.range' 1 (stress_ipsec_funcs.length - 1)) ∧
    (∀ k, 1 ≤ k → k < stress_ipsec_funcs.length → keep k = false →
      (∀ j, 1 ≤ j → j < k → keep j = true) →
      stress_ipsec_all keep = List.range' 1 (k - 1)) ∧
    (0 ∉ stress_ipsec_all keep) := by
  refine ⟨?_, ?_, ?_, ?_, ?_, ?_⟩
  · intro h
    exact dfpAllGo_ok cs _ (fun i _ => h i)
  · intro k hk1 hkN hfail hpre
    have h := dfpAllGo_fail cs (STRESS_NUM_DFP_FUNCS - 1) 1 (k - 1)
      (by simp [STRESS_NUM_DFP_FUNCS, stress_dfp_funcs] at hkN ⊢; omega)
      (by rw [show 1 + (k - 1) = k by omega]; exact hfail)
      (fun j hj => hpre (1 + j) (by omega) (by omega))
    rw [show k - 1 + 1 = k by omega] at h
    exact h
  · intro h0
    have := dfpAllGo_trace_subset cs (List.range' 1 (STRESS_NUM_DFP_FUNCS - 1)) 0 h0
    rw [List.mem_range'_1] at this
    omega
  · intro h
    exact ipsecAllGo_all_true keep _ (fun i _ => h i)
  · intro k hk1 hkN hstop hpre
    exact ipsecAllGo_stops keep (stress_ipsec_funcs.length - 1) 1 (k - 1)
      (by simp [stress_ipsec_funcs] at hkN ⊢; omega)
      (by rw [show 1 + (k - 1) = k by omega]; exact hstop)
      (fun j hj => hpre (1 + j) (by omega) (by omega))
  · intro h0
    have := ipsecAllGo_trace_subset keep
      (List.range' 1 (stress_ipsec_funcs.length - 1)) 0 h0
    rw [List.mem_range'_1] at this
    omega

/-- C6 witness: with every sub-call succeeding, dfp "all" invokes indices
1..9 and returns `0.0`; with index 4 the first failure, it invokes exactly
1..4 and returns `-1.0`; ipsec "all" with `keep_stressing` turning false at
index 5 dispatches exactly 1..4. -/
theorem all_aggregator_witness :
    stress_dfp_all (fun _ => EXIT_SUCCESS) = (List.range' 1 9, 0) ∧
    stress_dfp_all (fun i => if i = 4 then EXIT_FAILURE else EXIT_SUCCESS) =
      (List.range' 1 4, -1) ∧
    stress_ipsec_all (fun i => decide (i < 5)) = List.range' 1 4 := by
  refine ⟨?_, ?_, ?_⟩
  · have h := (all_aggregator_complete (fun _ => EXIT_SUCCESS) (fun _ => true)).1
      (fun _ => by decide)
    simpa [STRESS_NUM_DFP_FUNCS, stress_dfp_funcs] using h
  · exact (all_aggregator_complete
        (fun i => if i = 4 then EXIT_FAILURE else EXIT_SUCCESS) (fun _ => true)).2.1
      4 (by decide) (by simp [STRESS_NUM_DFP_FUNCS, stress_dfp_funcs])
      (by decide) (fun j hj1 hj2 => by
        rw [if_neg (by omega)]
        decide)
  · have h := (all_aggregator_complete (fun _ => EXIT_SUCCESS)
        (fun i => decide (i < 5))).2.2.2.2.1
      5 (by decide) (by simp [stress_ipsec_funcs]) (by decide)
      (fun j hj1 hj2 => by simp; omega)
    simpa using h

/-! ## Helper lemmas : ipsec feature dispatch -/

/-- All `(outer, inner)` pairs, one per method invocation of a full
`Running`-loop pass: for each outer index in order, all inner indices in
order. -/
def crossPairs (outer inner : List Nat) : List (Nat × Nat) :=
  match outer with
  | [] => []
  | i :: rest => (inner.map fun j => (i, j)) ++ crossPairs rest inner

/-- The trace of `stress_ipsec_call_func` is exactly the supported
descriptor indices, in table order. -/
theorem ipsecCallGo_trace (d o : Nat → Rat) :
    ∀ (fs : List MbFeature) (i : Nat),
      (ipsecCallGo d o fs i).2 = supportedIdxAux fs i := by
  intro fs
  induction fs with
  | nil => intro i; rfl
  | cons f rest ih =>
    intro i
    simp only [ipsecCallGo, supportedIdxAux]
    by_cases h : f.supported <;> simp [h, ih (i + 1)]

/-- Pointwise effect of `stress_ipsec_call_func` on the feature table:
descriptor `k` accumulates exactly its own invocation's duration and ops
when supported, and is untouched otherwise. -/
theorem ipsecCallGo_getD (d o : Nat → Rat) :
    ∀ (fs : List MbFeature) (i k : Nat),
      (ipsecCallGo d o fs i).1.getD k ⟨false, 0, 0⟩ =
        if (fs.getD k ⟨false, 0, 0⟩).supported = true then
          ⟨true, (fs.getD k ⟨false, 0, 0⟩).dur + d (i + k),
            (fs.getD k ⟨false, 0, 0⟩).ops + o (i + k)⟩
        else fs.getD k ⟨false, 0, 0⟩ := by
  intro fs
  induction fs with
  | nil => intro i k; simp [ipsecCallGo]
  | cons f rest ih =>
    intro i k
    simp only [ipsecCallGo]
    by_cases h : f.supported
    · rw [if_pos h]
      cases k with
      | zero => simp [h]
      | succ k =>
        simp only [List.getD_cons_succ]
        rw [ih (i + 1) k, show i + 1 + k = i + (k + 1) by omega]
    · rw [if_neg h]
      cases k with
      | zero => simp [h]
      | succ k =>
        simp only [List.getD_cons_succ]
        rw [ih (i + 1) k, show i + 1 + k = i + (k + 1) by omega]

/-- `stress_ipsec_call_func` leaves every descriptor's `supported` flag (and
hence the supported index set) unchanged. -/
theorem ipsecCallGo_supportedIdxAux (d o : Nat → Rat) :
    ∀ (fs : List MbFeature) (i j : Nat),
      supportedIdxAux (ipsecCallGo d o fs i).1 j = supportedIdxAux fs j := by
  intro fs
  induction fs with
  | nil => intro i j; rfl
  | cons f rest ih =>
    intro i j
    simp only [ipsecCallGo]
    by_cases h : f.supported
    · rw [if_pos h]
      simp only [supportedIdxAux, h, if_pos trivial]
      rw [ih (i + 1) (j + 1)]
    · rw [if_neg h]
      simp only [supportedIdxAux, h]
      rw [ih (i + 1) (j + 1)]

/-- `stress_ipsec_call_func` preserves the `supported` flag at every
position. -/
theorem ipsecCallGo_supported_getD (d o : Nat → Rat) (fs : List MbFeature)
    (i k : Nat) :
    ((ipsecCallGo d o fs i).1.getD k ⟨false, 0, 0⟩).supported =
      (fs.getD k ⟨false, 0, 0⟩).supported := by
  rw [ipsecCallGo_getD]
  by_cases h : (fs.getD k ⟨false, 0, 0⟩).supported = true
  · rw [if_pos h, h]
  · rw [if_neg h]

/-- The trace of one `Running`-loop pass over outer index list `outer`: one
`stress_ipsec_call_func` call (hence one full inner sweep of the supported
descriptors) per supported outer index. -/
theorem ipsecMainGo_trace (d o : Nat → Nat → Rat) :
    ∀ (outer : List Nat) (fs : List MbFeature),
      (ipsecMainGo d o outer fs).2 =
        crossPairs (outer.filter fun i => (fs.getD i ⟨false, 0, 0⟩).supported)
          (supportedIdx fs) := by
  intro outer
  induction outer with
  | nil => intro fs; rfl
  | cons i rest ih =>
    intro fs
    simp only [ipsecMainGo, List.filter_cons]
    by_cases h : (fs.getD i ⟨false, 0, 0⟩).supported
    · rw [if_pos h]
      simp only [h, if_pos trivial, crossPairs]
      rw [ih]
      have hflt : (rest.filter fun x =>
            ((stress_ipsec_call_func fs (d i) (o i)).1.getD x ⟨false, 0, 0⟩).supported) =
          (rest.filter fun x => (fs.getD x ⟨false, 0, 0⟩).supported) := by
        apply List.filter_congr
        intro x _
        rw [stress_ipsec_call_func, ipsecCallGo_supported_getD]
      have hsup : supportedIdx (stress_ipsec_call_func fs (d i) (o i)).1 =
          supportedIdx fs := by
        rw [stress_ipsec_call_func, supportedIdx, supportedIdx,
          ipsecCallGo_supportedIdxAux]
      rw [hflt, hsup, stress_ipsec_call_func, ipsecCallGo_trace]
      rfl
    · rw [if_neg h]
      simp only [h]
      rw [ih]
      simp

/-- The supported-index list coincides with filtering the position range of
the table by the `supported` flag. -/
theorem supportedIdxAux_eq_filter :
    ∀ (fs : List MbFeature) (s : Nat),
      supportedIdxAux fs s =
        (List.range' s fs.length).filter
          (fun x => (fs.getD (x - s) ⟨false, 0, 0⟩).supported) := by
  intro fs
  induction fs with
  | nil => intro s; rfl
  | cons f rest ih =>
    intro s
    simp only [List.length_cons, List.range'_succ, List.filter_cons,
      Nat.sub_self, List.getD_cons_zero]
    have hflt : ((List.range' (s + 1) rest.length).filter
          (fun x => ((f :: rest).getD (x - s) ⟨false, 0, 0⟩).supported)) =
        ((List.range' (s + 1) rest.length).filter
          (fun x => (rest.getD (x - (s + 1)) ⟨false, 0, 0⟩).supported)) := by
      apply List.filter_congr
      intro x hx
      rw [List.mem_range'_1] at hx
      rw [show x - s = (x - (s + 1)) + 1 by omega, List.getD_cons_succ]
    rw [hflt, ← ih (s + 1)]
    simp only [supportedIdxAux]

/-- Filtering the full position range by `supported` gives the supported
index list. -/
theorem supportedIdx_eq_filter_range (fs : List MbFeature) :
    (List.range fs.length).filter
        (fun x => (fs.getD x ⟨false, 0, 0⟩).supported) = supportedIdx fs := by
  rw [supportedIdx, supportedIdxAux_eq_filter fs 0, List.range_eq_range']
  apply List.filter_congr
  intro x _
  rw [Nat.sub_zero]

/-! ## Claim C2 : ipsec dispatch per Running-loop iteration -/

/-- C2 counterexample: with two supported descriptors (indices 0 and 1) and
no pinned override, one pass of the `Running` loop performs four method
invocations — descriptor 0's context is exercised twice, not exactly once —
because the loop body calls `stress_ipsec_call_func` once per supported
descriptor and that function itself sweeps all supported descriptors. -/
theorem ipsec_once_per_pass_cex :
    supportedIdx [⟨true, 0, 0⟩, ⟨true, 0, 0⟩, ⟨false, 0, 0⟩, ⟨false, 0, 0⟩,
      ⟨false, 0, 0⟩] = [0, 1] ∧
    (ipsecMainPass [⟨true, 0, 0⟩, ⟨true, 0, 0⟩, ⟨false, 0, 0⟩, ⟨false, 0, 0⟩,
        ⟨false, 0, 0⟩] (fun _ _ => 0) (fun _ _ => 0)).2 =
      [(0, 0), (0, 1), (1, 0), (1, 1)] ∧
    (ipsecMainPass [⟨true, 0, 0⟩, ⟨true, 0, 0⟩, ⟨false, 0, 0⟩, ⟨false, 0, 0⟩,
        ⟨false, 0, 0⟩] (fun _ _ => 0) (fun _ _ => 0)).2.countP
      (fun p => p.2 == 0) = 2 ∧
    (2 : Nat) ≠ 1 := by
  refine ⟨by decide, by decide, by decide, by decide⟩

/-- C2 (amended): one call to `stress_ipsec_call_func` invokes the selected
method exactly once per supported descriptor, in table order, and descriptor
`k`'s stats accumulate exactly its own invocation's duration and ops
(unsupported descriptors are untouched).  One pass of the `Running` loop,
however, makes one such call per supported outer descriptor, so its
invocation trace is the full cross product — each supported descriptor is
exercised once per supported descriptor, i.e. `k` times when `k` descriptors
are supported. -/
theorem ipsec_dispatch_per_pass (fs : List MbFeature) (d1 o1 : Nat → Rat)
    (d o : Nat → Nat → Rat) :
    ((stress_ipsec_call_func fs d1 o1).2 = supportedIdx fs) ∧
    (∀ k, (stress_ipsec_call_func fs d1 o1).1.getD k ⟨false, 0, 0⟩ =
      if (fs.getD k ⟨false, 0, 0⟩).supported = true then
        ⟨true, (fs.getD k ⟨false, 0, 0⟩).dur + d1 k,
          (fs.getD k ⟨false, 0, 0⟩).ops + o1 k⟩
      else fs.getD k ⟨false, 0, 0⟩) ∧
    ((ipsecMainPass fs d o).2 = crossPairs (supportedIdx fs) (supportedIdx fs)) := by
  refine ⟨?_, ?_, ?_⟩
  · rw [stress_ipsec_call_func, ipsecCallGo_trace]
    rfl
  · intro k
    rw [stress_ipsec_call_func, ipsecCallGo_getD]
    simp
  · rw [ipsecMainPass, ipsecMainGo_trace, supportedIdx_eq_filter_range]

/-! ## Helper lemmas : the reporting loops -/

/-- Every metric the dfp shutdown loop emits comes from an index in its
loop list whose stats have strictly positive duration and ops, carries the
rate `ops / duration` (emitted scaled to mega-ops), the harmonic-mean
aggregation kind, and the metric slot `index = funcIndex - 1`. -/
theorem dfpReportGo_mem (statsOf : Nat → DfpStats) (l : List Nat) :
    ∀ m ∈ dfpReportGo statsOf l, m.funcIndex ∈ l ∧
      0 < (statsOf m.funcIndex).duration ∧ 0 < (statsOf m.funcIndex).ops ∧
      m.rate = (statsOf m.funcIndex).ops / (statsOf m.funcIndex).duration ∧
      m.value = m.rate / 1000000 ∧
      m.agg = .harmonicMean ∧ m.index = m.funcIndex - 1 := by
  induction l with
  | nil => intro m hm; simp [dfpReportGo] at hm
  | cons i rest ih =>
    intro m hm
    simp only [dfpReportGo] at hm
    by_cases h : 0 < (statsOf i).duration ∧ 0 < (statsOf i).ops
    · rw [if_pos h] at hm
      rcases List.mem_cons.mp hm with h1 | h2
      · subst h1
        exact ⟨List.mem_cons_self i rest, h.1, h.2, rfl, rfl, rfl, rfl⟩
      · have hr := ih m h2
        exact ⟨List.mem_cons_of_mem i hr.1, hr.2⟩
    · rw [if_neg h] at hm
      have hr := ih m hm
      exact ⟨List.mem_cons_of_mem i hr.1, hr.2⟩

/-- Every metric the ipsec shutdown loop emits comes from a feature-table
position with strictly positive accumulated duration, and carries the rate
`ops / duration` of exactly that descriptor. -/
theorem ipsecReportGo_mem :
    ∀ (fs : List MbFeature) (i j : Nat), ∀ m ∈ ipsecReportGo fs i j,
      ∃ k, k < fs.length ∧ m.featureIndex = i + k ∧
        0 < (fs.getD k ⟨false, 0, 0⟩).dur ∧
        m.rate = (fs.getD k ⟨false, 0, 0⟩).ops / (fs.getD k ⟨false, 0, 0⟩).dur := by
  intro fs
  induction fs with
  | nil => intro i j m hm; simp [ipsecReportGo] at hm
  | cons f rest ih =>
    intro i j m hm
    simp only [ipsecReportGo] at hm
    by_cases h : 0 < f.dur
    · rw [if_pos h] at hm
      rcases List.mem_cons.mp hm with h1 | h2
      · subst h1
        exact ⟨0, by simp, by simp, h, rfl⟩
      · obtain ⟨k, hk, hfi, hdur, hrate⟩ := ih (i + 1) (j + 1) m h2
        refine ⟨k + 1, by simpa using hk, by omega, ?_, ?_⟩
        · simpa using hdur
        · simpa using hrate
    · rw [if_neg h] at hm
      obtain ⟨k, hk, hfi, hdur, hrate⟩ := ih (i + 1) j m hm
      refine ⟨k + 1, by simpa using hk, by omega, ?_, ?_⟩
      · simpa using hdur
      · simpa using hrate

/-! ## Claim C10 : the "all" entry accumulates stats that are never emitted -/

/-- C10: a top-level dispatch of the "all" entry (index 0) accumulates the
returned duration — even the `-1.0` failure sentinel — and the fixed op
count into index 0's own stats record, touching no other entry; yet the
shutdown loop only visits registry indices `1 .. STRESS_NUM_DFP_FUNCS - 1`,
so every emitted metric belongs to a concrete non-"all" method and the
stats accumulated on the "all" entry itself are never emitted. -/
theorem dfp_all_entry_stats_never_emitted (tbl : Nat → DfpStats) (verify : Bool)
    (dt0 dt1 : Rat) (c : Bool) (data : List DfpSlots) (statsOf : Nat → DfpStats) :
    ((dfpCallMethodUpd tbl 0 verify dt0 dt1 c data).1 0 =
      ⟨(tbl 0).duration + dt0,
        (tbl 0).ops + (DFP_ELEMENTS * LOOPS_PER_CALL : Nat)⟩) ∧
    (∀ j, j ≠ 0 → (dfpCallMethodUpd tbl 0 verify dt0 dt1 c data).1 j = tbl j) ∧
    (∀ m ∈ stress_dfp_report statsOf, m.funcIndex ≠ 0 ∧ 1 ≤ m.funcIndex ∧
      m.funcIndex < STRESS_NUM_DFP_FUNCS) := by
  refine ⟨?_, ?_, ?_⟩
  · simp [dfpCallMethodUpd, stress_dfp_call_method]
  · intro j hj
    simp [dfpCallMethodUpd, hj]
  · intro m hm
    have h := (dfpReportGo_mem statsOf _ m hm).1
    rw [List.mem_range'_1] at h
    have hN : STRESS_NUM_DFP_FUNCS = 10 := by
      simp [STRESS_NUM_DFP_FUNCS, stress_dfp_funcs]
    omega

/-- C10 witness: dispatching the "all" entry with the `-1.0` sentinel adds
it to index 0's duration and leaves index 1 untouched; with only index 5's
stats positive the report contains a single metric, for index 5. -/
theorem dfp_all_entry_stats_witness :
    ((dfpCallMethodUpd (fun _ => ⟨0, 0⟩) 0 true (-1) 0 true []).1 0 =
      ⟨(0 : Rat) + (-1), (0 : Rat) + (DFP_ELEMENTS * LOOPS_PER_CALL : Nat)⟩) ∧
    ((dfpCallMethodUpd (fun _ => ⟨0, 0⟩) 0 true (-1) 0 true []).1 1 = ⟨0, 0⟩) ∧
    (stress_dfp_report (fun i => if i = 5 then ⟨1, 2⟩ else ⟨0, 0⟩) =
      [⟨4, 5, 2 / 1, 2 / 1 / 1000000, .harmonicMean⟩]) ∧
    ((5 : Nat) ≠ 0 ∧ 1 ≤ (5 : Nat) ∧ (5 : Nat) < STRESS_NUM_DFP_FUNCS) := by
  have h := dfp_all_entry_stats_never_emitted (fun _ => ⟨0, 0⟩) true (-1) 0 true []
    (fun i => if i = 5 then ⟨1, 2⟩ else ⟨0, 0⟩)
  have hrep : stress_dfp_report (fun i => if i = 5 then ⟨1, 2⟩ else ⟨0, 0⟩) =
      [⟨4, 5, 2 / 1, 2 / 1 / 1000000, .harmonicMean⟩] := by
    norm_num [stress_dfp_report, dfpReportGo, STRESS_NUM_DFP_FUNCS,
      stress_dfp_funcs, List.range']
  refine ⟨h.1, h.2.1 1 one_ne_zero, hrep, ?_⟩
  exact h.2.2 ⟨4, 5, 2 / 1, 2 / 1 / 1000000, .harmonicMean⟩ (by rw [hrep]; simp)

/-! ## Claim C9 : shutdown rate computation and emission guards -/

/-- C9 counterexample: `stress_prime` emits its harmonic-mean metric
unconditionally — with an accumulated duration of `0.0` (not strictly
positive) a metric with rate `0.0` is still emitted, so the emission is not
restricted to entries with strictly positive duration (the division itself
is guarded by the ternary). -/
theorem metrics_emission_cex :
    ¬ (0 < (0 : Rat)) ∧
    (stress_prime_finish false 5 0).metrics = [⟨0, .harmonicMean⟩] ∧
    (stress_prime_finish false 5 0).metrics.length = 1 := by
  refine ⟨by norm_num, ?_, rfl⟩
  simp [stress_prime_finish]

/-- C9 (amended): every dfp metric comes from an entry with strictly
positive duration and ops and carries rate `ops_total / duration_total` with
the harmonic-mean aggregation kind; every ipsec metric comes from a
descriptor with strictly positive duration and carries that descriptor's
`ops / duration` (the ipsec `stress_metrics_set` call site passes no
aggregation-kind argument); prime always emits exactly one harmonic-mean
metric, with rate `ops / duration` when the duration is strictly positive
and `0.0` otherwise — its division is guarded but its emission is not. -/
theorem metrics_emission_guards (statsOf : Nat → DfpStats) (fs : List MbFeature)
    (jumped : Bool) (ops : Nat) (duration : Rat) :
    (∀ m ∈ stress_dfp_report statsOf,
      0 < (statsOf m.funcIndex).duration ∧ 0 < (statsOf m.funcIndex).ops ∧
      m.rate = (statsOf m.funcIndex).ops / (statsOf m.funcIndex).duration ∧
      m.agg = .harmonicMean) ∧
    (∀ m ∈ stress_ipsec_report fs,
      ∃ k, k < fs.length ∧ m.featureIndex = k ∧
        0 < (fs.getD k ⟨false, 0, 0⟩).dur ∧
        m.rate = (fs.getD k ⟨false, 0, 0⟩).ops / (fs.getD k ⟨false, 0, 0⟩).dur) ∧
    ((stress_prime_finish jumped ops duration).metrics =
      [⟨if 0 < duration then (ops : Rat) / duration else 0, .harmonicMean⟩]) := by
  refine ⟨?_, ?_, rfl⟩
  · intro m hm
    have h := dfpReportGo_mem statsOf _ m hm
    exact ⟨h.2.1, h.2.2.1, h.2.2.2.1, h.2.2.2.2.2.1⟩
  · intro m hm
    obtain ⟨k, hk, hfi, hdur, hrate⟩ := ipsecReportGo_mem fs 0 0 m hm
    exact ⟨k, hk, by omega, hdur, hrate⟩

/-- C9 witness: a single supported ipsec descriptor with duration 1 and ops
3 yields exactly one metric, whose rate is that descriptor's `ops/duration`;
prime with duration 2 and 6 ops emits the single harmonic-mean metric with
rate 3. -/
theorem metrics_emission_witness :
    (stress_ipsec_report [⟨true, 1, 3⟩] = [⟨0, 0, 3 / 1⟩]) ∧
    (∃ k, k < 1 ∧ (0 : Nat) = k ∧
      0 < (([⟨true, 1, 3⟩] : List MbFeature).getD k ⟨false, 0, 0⟩).dur ∧
      (3 / 1 : Rat) = (([⟨true, 1, 3⟩] : List MbFeature).getD k ⟨false, 0, 0⟩).ops /
        (([⟨true, 1, 3⟩] : List MbFeature).getD k ⟨false, 0, 0⟩).dur) ∧
    ((stress_prime_finish false 6 2).metrics =
      [⟨if 0 < (2 : Rat) then (6 : Rat) / 2 else 0, .harmonicMean⟩]) := by
  have hrep : stress_ipsec_report [⟨true, 1, 3⟩] = [⟨0, 0, 3 / 1⟩] := by
    norm_num [stress_ipsec_report, ipsecReportGo]
  have h := metrics_emission_guards (fun _ => ⟨0, 0⟩) [⟨true, 1, 3⟩] false 6 2
  refine ⟨hrep, ?_, h.2.2⟩
  have hmem : (⟨0, 0, 3 / 1⟩ : IpsecMetric) ∈ stress_ipsec_report [⟨true, 1, 3⟩] := by
    rw [hrep]; simp
  exact h.2.1 ⟨0, 0, 3 / 1⟩ hmem

/-! ## Claim C8 : allocation-failure handling -/

/-- The `Running` loop performs one method invocation per pass, regardless
of per-call allocation failures. -/
theorem ipsecRunLoop_length (allocOK : Nat → Bool) :
    ∀ n, (ipsecRunLoop allocOK n).length = n := by
  intro n
  induction n with
  | zero => rfl
  | succ n ih => simp [ipsecRunLoop, ih]

/-- C8 counterexample: a failing per-call aligned buffer allocation inside
an ipsec method function does not abort the run with a no-resource skip and
is retried: with the allocation failing on every pass, a two-pass run still
returns `EXIT_SUCCESS` and attempts the allocation twice (each invocation
merely returning early, doing no work). -/
theorem alloc_failure_cex :
    stress_ipsec_mb true true true (fun _ => false) 2 =
      (EXIT_SUCCESS, [⟨true, false⟩, ⟨true, false⟩]) ∧
    EXIT_SUCCESS ≠ EXIT_NO_RESOURCE := by
  exact ⟨by decide, by decide⟩

/-- C8 (amended): the dfp data mmap failure and the ipsec manager
allocation failure abort the run immediately with `EXIT_NO_RESOURCE`,
before any main-loop call, with no retry; but a per-call aligned buffer
allocation failure inside an ipsec method function only makes that
invocation return early without doing work — the run keeps its success
status, keeps looping, and re-attempts the allocation on every later
invocation. -/
theorem alloc_failure_paths (callStatus : Nat → Nat) (budget : Nat)
    (statsOf : Nat → DfpStats) (gotFeatures : Bool) (allocOK : Nat → Bool)
    (passes : Nat) :
    (stress_dfp true callStatus budget statsOf = ⟨EXIT_NO_RESOURCE, 0, []⟩) ∧
    (stress_ipsec_mb true false gotFeatures allocOK passes =
      (EXIT_NO_RESOURCE, [])) ∧
    (∀ n, allocOK n = false → stress_ipsec_sha (allocOK n) = ⟨true, false⟩) ∧
    ((stress_ipsec_mb true true true allocOK passes).1 = EXIT_SUCCESS) ∧
    ((stress_ipsec_mb true true true allocOK passes).2.length = passes) := by
  refine ⟨rfl, rfl, ?_, rfl, ?_⟩
  · intro n hn
    simp [stress_ipsec_sha, hn]
  · simp only [stress_ipsec_mb]
    norm_num [ipsecRunLoop_length]

/-- C8 witness: with the per-call allocation failing on pass 0, a
three-pass ipsec run still succeeds with three invocations; the dfp mmap
failure and the ipsec manager failure skip with `EXIT_NO_RESOURCE`. -/
theorem alloc_failure_witness :
    (stress_dfp true (fun _ => EXIT_SUCCESS) 0 (fun _ => ⟨0, 0⟩) =
      ⟨EXIT_NO_RESOURCE, 0, []⟩) ∧
    (stress_ipsec_mb true false true (fun _ => false) 3 =
      (EXIT_NO_RESOURCE, [])) ∧
    ((fun _ => false : Nat → Bool) 0 = false) ∧
    (stress_ipsec_sha ((fun _ => false : Nat → Bool) 0) = ⟨true, false⟩) ∧
    ((stress_ipsec_mb true true true (fun _ => false) 3).1 = EXIT_SUCCESS) ∧
    ((stress_ipsec_mb true true true (fun _ => false) 3).2.length = 3) := by
  have h := alloc_failure_paths (fun _ => EXIT_SUCCESS) 0 (fun _ => ⟨0, 0⟩)
    true (fun _ => false) 3
  exact ⟨h.1, h.2.1, rfl, h.2.2.1 0 rfl, h.2.2.2.1, h.2.2.2.2⟩

/-! ## Claim C7 : the two-stage alarm handler and the escaped finish path -/

/-- C7: the alarm handler clears the continue flag on every delivery; on
the first delivery of a run (static count 0) it does not `siglongjmp`; on
any later delivery (count at least 1) it does.  After an escape
(`jumped = true`) the `finish:` path skips `mpz_clears`, while still
emitting its metric and returning `EXIT_SUCCESS` through normal teardown;
without an escape `mpz_clears` runs. -/
theorem prime_two_stage_escalation (flag : Bool) (s : PrimeSigState)
    (ops : Nat) (d : Rat) :
    (stress_prime_alarm_handler ⟨flag, 0⟩ = (⟨false, 1⟩, false)) ∧
    ((stress_prime_alarm_handler s).1.contFlag = false) ∧
    (1 ≤ s.count → (stress_prime_alarm_handler s).2 = true) ∧
    ((stress_prime_finish true ops d).mpzCleared = false) ∧
    ((stress_prime_finish true ops d).metrics.length = 1) ∧
    ((stress_prime_finish true ops d).status = EXIT_SUCCESS) ∧
    ((stress_prime_finish false ops d).mpzCleared = true) := by
  refine ⟨rfl, rfl, ?_, rfl, rfl, rfl, rfl⟩
  intro h
  simp only [stress_prime_alarm_handler, decide_eq_true_eq]
  omega

/-- C7 witness: the second delivery — from the tripped state with count 1 —
performs the `siglongjmp`, and the escaped finish path at duration 2 skips
`mpz_clears` yet still reports and succeeds. -/
theorem prime_two_stage_witness :
    (stress_prime_alarm_handler ⟨true, 0⟩ = (⟨false, 1⟩, false)) ∧
    (1 ≤ (1 : Nat)) ∧
    ((stress_prime_alarm_handler ⟨false, 1⟩).2 = true) ∧
    ((stress_prime_finish true 6 2).mpzCleared = false) ∧
    ((stress_prime_finish true 6 2).status = EXIT_SUCCESS) := by
  have h := prime_two_stage_escalation true ⟨false, 1⟩ 6 2
  exact ⟨h.1, le_rfl, h.2.2.1 le_rfl, h.2.2.2.1, h.2.2.2.2.2.1⟩
